import Mathlib

/-!
Shallow embedding of the cod3x-recon core (TypeScript) in Lean 4, together
with theorems settling the frozen claims about its specification.

Conventions used throughout:
* JS numbers holding timestamps or scores are modelled as `Int` (milliseconds
  since the epoch for times); HTTP status codes and lengths as `Nat`.
* `Date.now()` is threaded explicitly as a `now : Int` parameter.
* JS string truthiness (`if (s)`) is modelled as `s ≠ ""` for strings and
  `Option.isSome` for possibly-`undefined` values.
* Header maps (`Record<string, string>`) are association lists with
  first-match lookup.
* Asynchronous code whose awaited operations are modelled as pure inputs
  (DNS answers, HTTP responses) becomes a pure function of those inputs.
-/

namespace Cod3x

/-- First-match lookup in an association list (JS object property access). -/
def alistGet? {β : Type} (l : List (String × β)) (k : String) : Option β :=
  match l with
  | [] => none
  | (k', v) :: rest => if k' = k then some v else alistGet? rest k

/-- Remove every binding of a key from an association list. -/
def alistRemove {β : Type} (l : List (String × β)) (k : String) : List (String × β) :=
  l.filter (fun p => p.1 ≠ k)

/-- Case-insensitive-free substring test on character lists:
`listContains hay needle` is true when `needle` occurs contiguously in `hay`. -/
def listContains (hay needle : List Char) : Bool :=
  match hay with
  | [] => needle.isEmpty
  | _ :: rest => needle.isPrefixOf hay || listContains rest needle

/-- Substring test on strings (JS `String.prototype.includes`). -/
def strContains (hay needle : String) : Bool :=
  listContains hay.data needle.data

/-- Lowercase a string (JS `toLowerCase`; ASCII case folding). -/
def strLower (s : String) : String :=
  ⟨s.data.map Char.toLower⟩

/-- `true` when the lowercased hay contains any of the given lowercase
alternatives: models `new RegExp('a|b|c', 'i').test(hay)` for alternations of
literals. -/
def matchesAnyCI (hay : String) (alts : List String) : Bool :=
  alts.any (fun a => strContains (strLower hay) a)

/-! ## Data model (src/core/types.ts) -/

/-- `TLSInfo` from src/core/types.ts.  `validFrom`/`validTo` are epoch
milliseconds (`Date#getTime`). -/
structure TLSInfo where
  validationError : Option String := none
  version : Option String := none
  cipher : Option String := none
  cipherVersion : Option String := none
  validFrom : Option Int := none
  validTo : Option Int := none
  issuer : Option String := none
  subject : Option String := none
  altNames : List String := []
  ja3Lite : Option String := none
  deriving Repr, DecidableEq

/-- `EndpointCheck` from src/core/types.ts.  The TS field `exists` is a Lean
keyword, so it is rendered `existsFlag`. -/
structure EndpointCheck where
  path : String
  statusCode : Nat
  existsFlag : Bool
  notes : Option String := none
  deriving Repr, DecidableEq

/-- `ProbeResult` from src/core/types.ts.  Header values have already gone
through `normalizeHeaders`, so the map is string-valued. -/
structure ProbeResult where
  hostname : String
  ip : String
  protocol : String            -- 'http' | 'https'
  port : Nat
  statusCode : Nat
  statusText : String
  headers : List (String × String)
  contentLength : Nat
  title : Option String := none
  redirectChain : List String := []
  tls : Option TLSInfo := none
  endpoints : List EndpointCheck := []
  responseTime : Int
  timestamp : Int
  deriving Repr, DecidableEq

/-- `ClassificationHint` from src/core/types.ts.  A plugin hint whose
`riskScore` is absent behaves as `?? 0`, so absence is modelled by the hook
supplying `0`; an absent `notes` field behaves as the falsy `""`. -/
structure ClassificationHint where
  categories : List String
  riskScore : Int
  notes : String
  deriving Repr, DecidableEq

/-- `ClassifiedResult` from src/core/types.ts (`ProbeResult` plus
classification fields). -/
structure ClassifiedResult extends ProbeResult where
  categories : List String
  riskScore : Int
  notes : String
  deriving Repr, DecidableEq

/-- Outcome of invoking a plugin's `onClassify` hook: the call either throws
or returns a value; a returned `null` / non-conforming shape is `none`. -/
inductive HookResult where
  | thrown (message : String)
  | value (hint : Option ClassificationHint)
  deriving Repr, DecidableEq

/-- A plugin, restricted to the `onClassify` hook (the only hook the
classifier invokes); `none` models a plugin without that hook. -/
structure Plugin where
  name : String
  onClassify : Option (ProbeResult → HookResult)

/-! ## Classifier (src/core/classifier.ts) -/

/-- Accumulator state of `applyBuiltInRules`: the `categories`, `riskScore`
and `notes` locals threaded through the straight-line rule blocks. -/
structure RuleState where
  categories : List String
  riskScore : Int
  notes : List String
  deriving Repr, DecidableEq

/-- One built-in rule block of `applyBuiltInRules`: a guard over the probe
result (and the categories accumulated so far, for the status-code chain), an
optional category to push, a risk floor, and a note. -/
structure Rule where
  cond : Int → ProbeResult → List String → Bool
  cat : Option String
  risk : Int
  note : ProbeResult → String

/-- Apply one rule block: push the category (if any), raise the risk score
with `Math.max`, and append the note — exactly the body shape shared by every
fired rule block in `applyBuiltInRules`. -/
def fireRule (s : RuleState) (rule : Rule) (r : ProbeResult) : RuleState :=
  { categories := s.categories ++ rule.cat.toList
    riskScore := max s.riskScore rule.risk
    notes := s.notes ++ [rule.note r] }

/-- One step of the rule pipeline. -/
def ruleStep (now : Int) (r : ProbeResult) (s : RuleState) (rule : Rule) : RuleState :=
  if rule.cond now r s.categories then fireRule s rule r else s

/-- The hostname-pattern table (`hostnamePatterns`); the regex alternations
of literal words are kept as lists of lowercase alternatives. -/
def hostnameRule (alts : List String) (cat : String) (risk : Int) : Rule :=
  { cond := fun _ r _ => matchesAnyCI r.hostname alts
    cat := some cat
    risk := risk
    note := fun _ => cat ++ " detected in hostname" }

/-- `headers['server']` lowered, `''` when absent (typeof check). -/
def serverHeaderOf (r : ProbeResult) : String :=
  match alistGet? r.headers "server" with
  | some s => strLower s
  | none => ""

/-- The outdated-`Server` regexes, expanded into the literal substrings they
match: `/apache\/1\./i`, `/apache\/2\.[0-2]/i`, `/nginx\/1\.[0-9]\./i`,
`/iis\/[6-7]\./i` (tested against the lowercased header). -/
def outdatedServerSubstrings : List String :=
  ["apache/1.", "apache/2.0", "apache/2.1", "apache/2.2",
   "nginx/1.0.", "nginx/1.1.", "nginx/1.2.", "nginx/1.3.", "nginx/1.4.",
   "nginx/1.5.", "nginx/1.6.", "nginx/1.7.", "nginx/1.8.", "nginx/1.9.",
   "iis/6.", "iis/7."]

/-- The four security headers checked by the weak-headers rule. -/
def securityHeaders : List String :=
  ["strict-transport-security", "x-frame-options",
   "x-content-type-options", "content-security-policy"]

/-- Headers from `securityHeaders` that are missing (or falsy-empty). -/
def missingSecurityHeaders (r : ProbeResult) : List String :=
  securityHeaders.filter (fun h => (alistGet? r.headers h).getD "" = "")

/-- Endpoints the sensitive-endpoint rule flags. -/
def sensitiveEndpoints (r : ProbeResult) : List EndpointCheck :=
  r.endpoints.filter
    (fun e => e.existsFlag && (strContains e.path "admin" || strContains e.path ".git"))

/-- The directory-listing detector over an endpoint's notes. -/
def hasDirListingNote (e : EndpointCheck) : Bool :=
  match e.notes with
  | none => false
  | some n =>
    if n = "" then false
    else strContains (strLower n) "directory listing" || strContains (strLower n) "index of"

/-- The built-in rule blocks of `Classifier.applyBuiltInRules`, in source
order: hostname patterns, the status-code else-if chain, header rules,
endpoint rules, TLS rules, the no-TLS rule, and the slow-response rule. -/
def builtInRules : List Rule :=
  [ hostnameRule ["staging", "stg", "stage", "dev", "development"] "staging" 60,
    hostnameRule ["api"] "api" 40,
    hostnameRule ["admin", "administrator", "management"] "admin-panel" 85,
    hostnameRule ["test", "testing", "qa"] "testing" 55,
    hostnameRule ["mail", "smtp", "imap", "pop"] "mail" 30,
    hostnameRule ["vpn", "remote"] "remote-access" 50,
    hostnameRule ["jenkins", "gitlab", "ci", "cd"] "ci-cd" 70,
    hostnameRule ["static", "cdn", "assets"] "static" 10,
    -- status === 200 && categories.includes('admin-panel')
    { cond := fun _ r cats => r.statusCode = 200 && cats.contains "admin-panel"
      cat := none, risk := 85, note := fun _ => "Admin panel accessible" },
    -- else if (401 || 403)
    { cond := fun _ r cats =>
        !(r.statusCode = 200 && cats.contains "admin-panel") &&
          (r.statusCode = 401 || r.statusCode = 403)
      cat := none, risk := 40, note := fun _ => "Authentication required" },
    -- else if (status >= 500)
    { cond := fun _ r cats =>
        !(r.statusCode = 200 && cats.contains "admin-panel") &&
          !(r.statusCode = 401 || r.statusCode = 403) && decide (500 ≤ r.statusCode)
      cat := none, risk := 30, note := fun _ => "Server error detected" },
    -- outdated server banner
    { cond := fun _ r _ => outdatedServerSubstrings.any (strContains (serverHeaderOf r))
      cat := some "outdated-server", risk := 60
      note := fun _ => "Outdated server software detected" },
    -- CORS misconfiguration
    { cond := fun _ r _ =>
        alistGet? r.headers "access-control-allow-origin" = some "*" &&
          alistGet? r.headers "access-control-allow-credentials" = some "true"
      cat := some "cors-unsafe", risk := 75, note := fun _ => "Unsafe CORS policy" },
    -- three or more missing security headers
    { cond := fun _ r _ => decide (3 ≤ (missingSecurityHeaders r).length)
      cat := some "weak-headers", risk := 45
      note := fun r => "Missing " ++ toString (missingSecurityHeaders r).length ++
        " security headers" },
    -- sensitive endpoints
    { cond := fun _ r _ => !(sensitiveEndpoints r).isEmpty
      cat := some "exposed-endpoints", risk := 80
      note := fun r => "Sensitive endpoints exposed: " ++
        String.intercalate ", " ((sensitiveEndpoints r).map (·.path)) },
    -- directory listing note on any endpoint
    { cond := fun _ r _ => r.endpoints.any hasDirListingNote
      cat := some "directory-listing", risk := 80
      note := fun _ => "Directory listing enabled â€” sensitive files may be exposed" },
    -- TLS certificate already expired
    { cond := fun now r _ =>
        match r.tls with
        | some t => match t.validTo with
          | some v => decide (v < now)
          | none => false
        | none => false
      cat := some "expired-certificate", risk := 65
      note := fun _ => "TLS certificate expired" },
    -- TLS certificate expiring within a week
    { cond := fun now r _ =>
        match r.tls with
        | some t => match t.validTo with
          | some v => decide (v - now < 7 * 24 * 60 * 60 * 1000)
          | none => false
        | none => false
      cat := some "expiring-certificate", risk := 40
      note := fun _ => "TLS certificate expiring soon" },
    -- weak cipher
    { cond := fun _ r _ =>
        match r.tls with
        | some t => match t.cipher with
          | some c => c ≠ "" && ["RC4", "DES", "MD5", "3DES"].any (strContains c)
          | none => false
        | none => false
      cat := some "weak-cipher", risk := 70
      note := fun _ => "Weak TLS cipher detected" },
    -- plain http without TLS
    { cond := fun _ r _ => r.tls.isNone && r.protocol = "http"
      cat := some "no-tls", risk := 50, note := fun _ => "No TLS encryption" },
    -- slow response
    { cond := fun _ r _ => decide (5000 < r.responseTime)
      cat := some "slow-response", risk := 20, note := fun _ => "Slow response time" } ]

/-- `Classifier.applyBuiltInRules`: run the rule pipeline over the empty
state, then substitute the sentinel `["standard"]` for an empty category list
and join the notes with `"; "`. -/
def applyBuiltInRules (now : Int) (r : ProbeResult) : ClassificationHint :=
  let s := builtInRules.foldl (ruleStep now r) ⟨[], 0, []⟩
  { categories := if s.categories.isEmpty then ["standard"] else s.categories
    riskScore := s.riskScore
    notes := String.intercalate "; " s.notes }

/-- One iteration of the plugin loop in `Classifier.classify`: a plugin with
no `onClassify`, a throwing hook, or a `null`/malformed hint contributes
nothing; a conforming hint appends its categories, raises the score with
`Math.max(risk, hint.riskScore ?? 0)` and pushes a truthy note. -/
def pluginStep (r : ProbeResult) (s : RuleState) (p : Plugin) : RuleState :=
  match p.onClassify with
  | none => s
  | some f =>
    match f r with
    | .thrown _ => s
    | .value none => s
    | .value (some h) =>
      { categories := s.categories ++ h.categories
        riskScore := max s.riskScore h.riskScore
        notes := s.notes ++ (if h.notes = "" then [] else [h.notes]) }

/-- First-occurrence deduplication (`Array.from(new Set(categories))`). -/
def dedupFirst : List String → List String
  | [] => []
  | x :: xs => x :: (dedupFirst xs).filter (· ≠ x)

/-- The per-record body of `Classifier.classify`: built-in rules, then the
plugin loop, then dedup / clamp / note joining. -/
def classifyOne (now : Int) (r : ProbeResult) (plugins : List Plugin) : ClassifiedResult :=
  let builtIn := applyBuiltInRules now r
  let s0 : RuleState :=
    { categories := builtIn.categories
      riskScore := max 0 builtIn.riskScore
      notes := if builtIn.notes = "" then [] else [builtIn.notes] }
  let s := plugins.foldl (pluginStep r) s0
  { toProbeResult := r
    categories := dedupFirst s.categories
    riskScore := min s.riskScore 100
    notes := if s.notes.isEmpty then "No significant findings"
             else String.intercalate "; " s.notes }

/-- `Classifier.classify`: one classified record per probe result, in order. -/
def classify (now : Int) (results : List ProbeResult) (plugins : List Plugin) :
    List ClassifiedResult :=
  results.map (fun r => classifyOne now r plugins)

/-! ### Characterizations of the classifier pipeline -/

/-- Replay of the built-in rule pipeline that records, instead of the folded
state, the categories and risk scores each fired rule contributes. -/
def collectRules (now : Int) (r : ProbeResult) :
    List Rule → List String → List String × List Int
  | [], cats => (cats, [])
  | rule :: rest, cats =>
    if rule.cond now r cats then
      let res := collectRules now r rest (cats ++ rule.cat.toList)
      (res.1, rule.risk :: res.2)
    else collectRules now r rest cats

/-- Categories contributed by fired built-in rules (no sentinel). -/
def builtInCatContribs (now : Int) (r : ProbeResult) : List String :=
  (collectRules now r builtInRules []).1

/-- Risk scores contributed by fired built-in rules. -/
def builtInRiskContribs (now : Int) (r : ProbeResult) : List Int :=
  (collectRules now r builtInRules []).2

/-- The hints actually accepted from the plugin loop: plugins with an
`onClassify` hook that returns a conforming, non-null hint without throwing. -/
def hookHints (r : ProbeResult) (plugins : List Plugin) : List ClassificationHint :=
  plugins.filterMap (fun p =>
    match p.onClassify with
    | none => none
    | some f =>
      match f r with
      | .thrown _ => none
      | .value none => none
      | .value (some h) => some h)

/-- `true` when the plugin's `onClassify` hook throws on this record. -/
def hookThrowsOn (p : Plugin) (r : ProbeResult) : Bool :=
  match p.onClassify with
  | none => false
  | some f =>
    match f r with
    | .thrown _ => true
    | .value _ => false

/-- A record that fires no built-in rule: neutral hostname, status 200, all
four security headers present, benign TLS descriptor, fast response. -/
def cexRecord : ProbeResult :=
  { hostname := "example.com", ip := "1.2.3.4", protocol := "https", port := 443
    statusCode := 200, statusText := "200"
    headers := [("strict-transport-security", "max-age=63072000"),
                ("x-frame-options", "DENY"),
                ("x-content-type-options", "nosniff"),
                ("content-security-policy", "default-src")]
    contentLength := 0, responseTime := 100, timestamp := 0
    tls := some {} }

/-- A plugin whose `onClassify` hook contributes the category `"custom"`. -/
def cexPlugin : Plugin :=
  { name := "cex", onClassify := some (fun _ => .value (some ⟨["custom"], 10, ""⟩)) }

/-! ## Host probe (src/core/probe.ts) -/

/-- `endsWith` over the character lists (JS `String.prototype.endsWith`). -/
def strEndsWith (s suffix : String) : Bool :=
  suffix.data.isSuffixOf s.data

/-- Outcome of one HTTP request issued by the redirect loop: a network
error / timeout / abort (the `catch` branch), or a response carrying a status
code, the optional `Location` header, and a body. -/
inductive ReqOutcome where
  | fail
  | resp (statusCode : Nat) (location : Option String) (body : String)
  deriving Repr, DecidableEq

/-- The observable parts of the final (non-redirect) response. -/
structure FinalResponse where
  statusCode : Nat
  location : Option String
  body : String
  deriving Repr, DecidableEq

/-- The `while (redirects <= maxRedirects)` loop of
`HostProber.fetchWithRedirects`.  The network is modelled as a map from URL
to request outcome, and `resolveLocation` (platform `new URL(loc, current)`
resolution) as an abstract function.  `fuel` stands for
`maxRedirects + 1 - redirects`, so the loop starts with
`fuel = maxRedirects + 1` and the `fuel = 0` case is the fall-through
"too many redirects" return. -/
def fetchLoop (net : String → ReqOutcome) (resolveLoc : String → String → String) :
    Nat → String → List String → Option FinalResponse × List String
  | 0, _, chain => (none, chain)
  | fuel + 1, url, chain =>
    match net url with
    | .fail => (none, chain)
    | .resp status loc body =>
      -- `(resp.headers.location as string) || undefined`: '' is falsy
      let rawLocation : Option String :=
        match loc with
        | some l => if l = "" then none else some l
        | none => none
      match rawLocation with
      | some l =>
        if 300 ≤ status ∧ status < 400 then
          let location := resolveLoc url l
          fetchLoop net resolveLoc fuel location (chain ++ [location])
        else (some ⟨status, loc, body⟩, chain)
      | none => (some ⟨status, loc, body⟩, chain)

/-- `HostProber.fetchWithRedirects`: start at `protocol://ip:port/` (the
`Host` header carrying the hostname lives inside the `net` abstraction) with
an empty chain and zero redirects so far. -/
def fetchWithRedirects (net : String → ReqOutcome)
    (resolveLoc : String → String → String) (ip protocol : String) (port : Nat)
    (maxRedirects : Nat) : Option FinalResponse × List String :=
  fetchLoop net resolveLoc (maxRedirects + 1)
    (protocol ++ "://" ++ ip ++ ":" ++ toString port ++ "/") []

/-- Record assembly of `HostProber.probeHost` for the fields this development
reasons about: the probe yields a record exactly when `fetchWithRedirects`
yields a final response, and copies the loop's redirect chain into the
record.  Fields derived from data outside the redirect loop (headers, title,
content length, TLS, endpoints, timing) are taken as parameters. -/
def probeHostRecord (net : String → ReqOutcome)
    (resolveLoc : String → String → String) (hostname ip protocol : String)
    (port : Nat) (headers : List (String × String)) (contentLength : Nat)
    (title : Option String) (tls : Option TLSInfo) (endpoints : List EndpointCheck)
    (responseTime timestamp : Int) : Option ProbeResult :=
  match fetchWithRedirects net resolveLoc ip protocol port 5 with
  | (none, _) => none
  | (some resp, redirectChain) =>
    some { hostname := hostname, ip := ip, protocol := protocol, port := port
           statusCode := resp.statusCode, statusText := toString resp.statusCode
           headers := headers, contentLength := contentLength, title := title
           redirectChain := redirectChain, tls := tls, endpoints := endpoints
           responseTime := responseTime, timestamp := timestamp }

/-- `true` when a request outcome is a followable redirect: a 3xx response
with a truthy `Location` header. -/
def isRedirectOutcome : ReqOutcome → Bool
  | .fail => false
  | .resp status loc _ =>
    match loc with
    | some l => decide (300 ≤ status) && decide (status < 400) && !(l = "")
    | none => false

/-- Outcome of one endpoint-discovery request. -/
inductive EndpointOutcome where
  | fail
  | ok (statusCode : Nat) (body : String)
  deriving Repr, DecidableEq

/-- The per-path task body of `HostProber.probeEndpoints`: a successful
request yields `exists := status < 400` plus heuristic notes; the `catch`
branch yields status `0` and `exists := false`. -/
def endpointCheckOf (p : String) (o : EndpointOutcome) : EndpointCheck :=
  match o with
  | .fail => { path := p, statusCode := 0, existsFlag := false }
  | .ok status body =>
    let ex := decide (status < 400)
    let notes : Option String :=
      if ex then
        if strContains (strLower body) "index of /"
            || strContains (strLower body) "parent directory" then
          some "Directory listing suspected"
        else if p = "/robots.txt" ∧ body ≠ "" then some "robots.txt present"
        else if p = "/sitemap.xml" ∧ body ≠ "" then some "sitemap.xml present"
        else none
      else none
    { path := p, statusCode := status, existsFlag := ex, notes := notes }

/-- JS `Set.prototype.add` on an insertion-ordered set. -/
def addUnique (l : List String) (x : String) : List String :=
  if l.contains x then l else l ++ [x]

/-- The path-expansion phase of `HostProber.probeEndpoints`: the configured
base endpoints, then — iterating over a snapshot of that set — a
trailing-slash variant for every path not ending in `/` and `.php` / `.asp`
variants for every extension-less path, and finally the guaranteed root. -/
def expandPaths (commonEndpoints : List String) : List String :=
  let paths0 := commonEndpoints.foldl addUnique []
  let paths1 := paths0.foldl (fun acc p =>
    let acc := if !(strEndsWith p "/") then addUnique acc (p ++ "/") else acc
    if !(strContains p ".") then addUnique (addUnique acc (p ++ ".php")) (p ++ ".asp")
    else acc) paths0
  addUnique paths1 "/"

/-- `HostProber.probeEndpoints` with the per-path request outcome modelled by
`net`.  The final `sort((a, b) => Number(b.exists) - Number(a.exists))` is a
stable sort on a boolean key, i.e. the stable partition existing-first. -/
def probeEndpoints (commonEndpoints : List String)
    (net : String → EndpointOutcome) : List EndpointCheck :=
  let paths := expandPaths commonEndpoints
  let resolved := paths.map (fun p => endpointCheckOf p (net p))
  resolved.filter (·.existsFlag) ++ resolved.filter (fun c => !c.existsFlag)

/-- A network in which every endpoint request fails. -/
def netAllFail : String → EndpointOutcome := fun _ => .fail

/-- A network in which every request is a `301` redirect to the same URL. -/
def netAllRedirect : String → ReqOutcome := fun _ => .resp 301 (some "http://x/") ""

/-- Identity-like stand-in for `Location` resolution in witnesses. -/
def resolveLocSnd : String → String → String := fun _ l => l

/-- Default element used with `List.getD` in ordering statements. -/
def dfltCheck : EndpointCheck := { path := "", statusCode := 0, existsFlag := false }

/-- Lowercase-hex rendering of a natural number (JS `Number#toString(16)`  on
a non-negative 32-bit value): minimal digits, lowercase, `"0"` for zero. -/
def natToHex (n : Nat) : String :=
  String.mk (Nat.toDigits 16 n)

/-- `HostProber.computeJA3Lite`: normalize the three inputs with
`?? 'unknown'`, join with `|`, then the 32-bit FNV-1a loop
(`h ^= c; h = Math.imul(h, 16777619) >>> 0`, i.e. XOR then multiply modulo
`2^32`) over the UTF-16 code units (code points coincide for the BMP strings
involved), rendered as `ja3lite-` plus lowercase hex. -/
def computeJA3Lite (protocol cipher sigAlg : Option String) : String :=
  let p := protocol.getD "unknown"
  let c := cipher.getD "unknown"
  let s := sigAlg.getD "unknown"
  let str := p ++ "|" ++ c ++ "|" ++ s
  let h := str.data.foldl
    (fun h ch => ((h ^^^ ch.toNat) * 16777619) % 4294967296) 2166136261
  "ja3lite-" ++ natToHex h

/-- Modelled from the spec for comparison in C9: 32-bit FNV-1a over a list
of character codes — offset basis `2166136261`, prime `16777619`,
XOR-then-multiply per character, arithmetic modulo `2 ^ 32`. -/
def specFnv1a32 : Nat → List Nat → Nat
  | h, [] => h
  | h, c :: cs => specFnv1a32 (((h ^^^ c) * 16777619) % 2 ^ 32) cs

/-! ## Cache manager (src/core/cache.ts, wrapping the `lru-cache` library)

The wrapper keeps its own `expiresAt` per entry, but also hands the default
TTL to the underlying `LRUCache` constructor (`ttl: ttl`,
`updateAgeOnGet: true`), so the library applies its own staleness bound of
`defaultTTL` since the last refreshing access.  Both layers are modelled:
`LruEntry.start` is the library's age field, refreshed by a successful `get`.
-/

/-- `CacheEntry<T>` from src/core/types.ts. -/
structure CMEntry (α : Type) where
  value : α
  expiresAt : Int
  deriving Repr, DecidableEq

/-- An entry as held by the underlying `lru-cache`: the wrapper's entry plus
the library's age timestamp. -/
structure LruEntry (α : Type) where
  entry : CMEntry α
  start : Int
  deriving Repr, DecidableEq

/-- `CacheManager<T>`: the underlying store (most-recently-used first), its
capacity, the TTL given to the `LRUCache` constructor, and the wrapper's
default TTL. -/
structure CacheManager (α : Type) where
  data : List (String × LruEntry α)
  maxSize : Nat
  lruTtl : Int
  defaultTTL : Int
  deriving Repr, DecidableEq

/-- `new CacheManager(maxSize, ttl)`: both the library TTL and the wrapper's
default TTL are set to `ttl`. -/
def CacheManager.new (α : Type) (maxSize : Nat) (ttl : Int) : CacheManager α :=
  ⟨[], maxSize, ttl, ttl⟩

/-- The library's `get`: a stale entry (age strictly greater than the library
TTL) is deleted and missed; a hit refreshes age (`updateAgeOnGet: true`) and
recency. -/
def lruGet {α : Type} (now : Int) (m : CacheManager α) (key : String) :
    Option (CMEntry α) × CacheManager α :=
  match alistGet? m.data key with
  | none => (none, m)
  | some e =>
    if now - e.start > m.lruTtl then
      (none, { m with data := alistRemove m.data key })
    else
      (some e.entry, { m with data := (key, { e with start := now }) :: alistRemove m.data key })

/-- The library's `set`: insert most-recent; when capacity is exceeded the
least-recently-used entry (the last one) is evicted. -/
def lruSet {α : Type} (now : Int) (m : CacheManager α) (key : String)
    (entry : CMEntry α) : CacheManager α :=
  let d := (key, ⟨entry, now⟩) :: alistRemove m.data key
  { m with data := if d.length > m.maxSize then d.dropLast else d }

/-- `CacheManager.get`: library lookup first, then the wrapper's own
`Date.now() > entry.expiresAt` check, deleting an expired entry. -/
def CacheManager.get {α : Type} (now : Int) (m : CacheManager α) (key : String) :
    Option α × CacheManager α :=
  match lruGet now m key with
  | (none, m') => (none, m')
  | (some entry, m') =>
    if now > entry.expiresAt then
      (none, { m' with data := alistRemove m'.data key })
    else (some entry.value, m')

/-- `CacheManager.set`: store with `expiresAt = Date.now() + (ttl ?? defaultTTL)`. -/
def CacheManager.set {α : Type} (now : Int) (m : CacheManager α) (key : String)
    (value : α) (ttl : Option Int) : CacheManager α :=
  lruSet now m key ⟨value, now + ttl.getD m.defaultTTL⟩

/-- `CacheManager.getOrSet`: on miss, invoke the factory and cache its
result.  The boolean records whether the factory ran. -/
def CacheManager.getOrSet {α : Type} (now : Int) (m : CacheManager α) (key : String)
    (factory : Unit → α) (ttl : Option Int) : α × CacheManager α × Bool :=
  match CacheManager.get now m key with
  | (some v, m') => (v, m', false)
  | (none, m') =>
    let v := factory ()
    (v, CacheManager.set now m' key v ttl, true)

/-- A `CacheManager` with capacity 10 and default TTL 100, used in C5's
counterexample and witness. -/
def smallCache : CacheManager Nat := CacheManager.new Nat 10 100

/-! ## Subdomain enumerator (src/core/enumerator.ts) -/

/-- `SubdomainResult` from src/core/types.ts. -/
structure SubdomainResult where
  hostname : String
  source : String
  resolvedIPs : List String
  timestamp : Int
  deriving Repr, DecidableEq

/-- The factory inside `SubdomainEnumerator.resolveDNS`: try A records,
fall back to AAAA only when the A lookup fails, and return `[]` when both
fail (the outer catch). -/
def dnsFactory (a aaaa : Except String (List String)) : List String :=
  match a with
  | .ok addresses => addresses
  | .error _ =>
    match aaaa with
    | .ok addresses => addresses
    | .error _ => []

/-- `SubdomainEnumerator.resolveDNS`: the factory result cached under
`dns:<hostname>` with an explicit 1-hour TTL via `dnsCache.getOrSet`. -/
def resolveDNS (now : Int) (cache : CacheManager (List String)) (hostname : String)
    (a aaaa : Except String (List String)) :
    List String × CacheManager (List String) × Bool :=
  CacheManager.getOrSet now cache ("dns:" ++ hostname)
    (fun _ => dnsFactory a aaaa) (some 3600000)

/-- The `dnsCache` as constructed: `new CacheManager<string[]>(5000, 3600000)`. -/
def dnsCacheInit : CacheManager (List String) := CacheManager.new _ 5000 3600000

/-- `SubdomainEnumerator.verifyDNS` with the (cached) resolution abstracted
as a function: keep exactly the candidates with at least one resolved
address, writing the addresses into `resolvedIPs`; zero-address candidates
are dropped silently. -/
def verifyDNS (resolve : String → List String) (candidates : List SubdomainResult) :
    List SubdomainResult :=
  candidates.filterMap (fun c =>
    let ips := resolve c.hostname
    if ips.length > 0 then some { c with resolvedIPs := ips } else none)

/-- A resolver answering one address for every hostname (C6 witness). -/
def resolveOne : String → List String := fun _ => ["93.184.216.34"]

/-- A discovery candidate (C6 witness). -/
def candA : SubdomainResult := ⟨"a.example.com", "wordlist", [], 0⟩

/-- `candA` after verification against `resolveOne` (C6 witness). -/
def verifiedA : SubdomainResult := ⟨"a.example.com", "wordlist", ["93.184.216.34"], 0⟩

theorem le_foldl_max (l : List Int) (b : Int) : b ≤ l.foldl max b := by
  induction l generalizing b with
  | nil => exact le_refl b
  | cons x xs ih => exact le_trans (le_max_left b x) (ih (max b x))

theorem run_rules_eq_collect (now : Int) (r : ProbeResult) :
    ∀ (rules : List Rule) (s : RuleState),
      (rules.foldl (ruleStep now r) s).categories
          = (collectRules now r rules s.categories).1
      ∧ (rules.foldl (ruleStep now r) s).riskScore
          = List.foldl max s.riskScore (collectRules now r rules s.categories).2 := by
  intro rules
  induction rules with
  | nil => intro s; exact ⟨rfl, rfl⟩
  | cons rule rest ih =>
    intro s
    by_cases h : rule.cond now r s.categories
    · have := ih (fireRule s rule r)
      simp only [List.foldl_cons, ruleStep, h, if_true, collectRules]
      exact ⟨this.1, this.2⟩
    · have := ih s
      simp only [List.foldl_cons, ruleStep, h, if_false, collectRules]
      exact ⟨this.1, this.2⟩

theorem applyBuiltInRules_riskScore (now : Int) (r : ProbeResult) :
    (applyBuiltInRules now r).riskScore
      = List.foldl max 0 (builtInRiskContribs now r) :=
  (run_rules_eq_collect now r builtInRules ⟨[], 0, []⟩).2

theorem applyBuiltInRules_categories (now : Int) (r : ProbeResult) :
    (applyBuiltInRules now r).categories
      = (if (builtInCatContribs now r).isEmpty then ["standard"]
         else builtInCatContribs now r) := by
  have h := (run_rules_eq_collect now r builtInRules ⟨[], 0, []⟩).1
  simp only [applyBuiltInRules, builtInCatContribs]
  rw [h]

theorem plugin_fold_spec (r : ProbeResult) :
    ∀ (plugins : List Plugin) (s : RuleState),
      (plugins.foldl (pluginStep r) s).categories
          = s.categories ++ (hookHints r plugins).flatMap (·.categories)
      ∧ (plugins.foldl (pluginStep r) s).riskScore
          = List.foldl max s.riskScore ((hookHints r plugins).map (·.riskScore)) := by
  intro plugins
  induction plugins with
  | nil => intro s; simp [hookHints]
  | cons p ps ih =>
    intro s
    match hp : p.onClassify with
    | none =>
      have := ih s
      simp only [List.foldl_cons, pluginStep, hp, hookHints, List.filterMap_cons]
      simpa [hookHints] using this
    | some f =>
      match hf : f r with
      | .thrown m =>
        have := ih s
        simp only [List.foldl_cons, pluginStep, hp, hf, hookHints, List.filterMap_cons]
        simpa [hookHints] using this
      | .value none =>
        have := ih s
        simp only [List.foldl_cons, pluginStep, hp, hf, hookHints, List.filterMap_cons]
        simpa [hookHints] using this
      | .value (some h) =>
        have := ih { categories := s.categories ++ h.categories
                     riskScore := max s.riskScore h.riskScore
                     notes := s.notes ++ (if h.notes = "" then [] else [h.notes]) }
        simp only [List.foldl_cons, pluginStep, hp, hf, hookHints, List.filterMap_cons]
        constructor
        · rw [this.1]; simp [hookHints]
        · rw [this.2]; simp [hookHints]

/-! ### Claim C1 — risk score is the clamped maximum of contributions -/

/-- C1: for every probe record and every set of extension hooks, the risk
score of the resulting `ClassifiedResult` equals the maximum of all scores
contributed by built-in rules and hooks (not their sum) clamped to `[0,100]`
(the `foldl max 0` base supplies the lower clamp), and in particular it is
never negative and never above 100 even when a hook contributes a score
above 100. -/
theorem classify_riskScore_clamped_max (now : Int) (r : ProbeResult)
    (plugins : List Plugin) :
    (classifyOne now r plugins).riskScore
        = min (List.foldl max 0
            (builtInRiskContribs now r ++ (hookHints r plugins).map (·.riskScore))) 100
    ∧ 0 ≤ (classifyOne now r plugins).riskScore
    ∧ (classifyOne now r plugins).riskScore ≤ 100 := by
  have hb : (applyBuiltInRules now r).riskScore
      = List.foldl max 0 (builtInRiskContribs now r) :=
    applyBuiltInRules_riskScore now r
  have hb0 : 0 ≤ (applyBuiltInRules now r).riskScore := by
    rw [hb]; exact le_foldl_max _ 0
  have hrisk : (classifyOne now r plugins).riskScore
      = min (List.foldl max (max 0 (applyBuiltInRules now r).riskScore)
          ((hookHints r plugins).map (·.riskScore))) 100 := by
    simp only [classifyOne]
    rw [(plugin_fold_spec r plugins _).2]
  have hmax : max 0 (applyBuiltInRules now r).riskScore
      = (applyBuiltInRules now r).riskScore := max_eq_right hb0
  refine ⟨?_, ?_, ?_⟩
  · rw [hrisk, hmax, hb, List.foldl_append]
  · rw [hrisk]
    have h1 : (0 : Int) ≤ List.foldl max (max 0 (applyBuiltInRules now r).riskScore)
        ((hookHints r plugins).map (·.riskScore)) :=
      le_trans (le_max_left 0 _) (le_foldl_max _ _)
    omega
  · rw [hrisk]; exact min_le_right _ _

/-! ### Claim C2 — the `"standard"` sentinel (corrected) -/

/-- Membership in `dedupFirst` is membership in the original list. -/
theorem mem_dedupFirst (a : String) : ∀ l : List String, a ∈ dedupFirst l ↔ a ∈ l := by
  intro l
  induction l with
  | nil => simp [dedupFirst]
  | cons x xs ih =>
    simp only [dedupFirst, List.mem_cons, List.mem_filter]
    by_cases hax : a = x
    · simp [hax]
    · simp [hax, ih]

/-- `dedupFirst` of a non-empty list is non-empty. -/
theorem dedupFirst_ne_nil (l : List String) (h : l ≠ []) : dedupFirst l ≠ [] := by
  cases l with
  | nil => exact absurd rfl h
  | cons x xs => simp [dedupFirst]

/-- No built-in rule block carries the sentinel `"standard"` as its category. -/
theorem builtInRules_no_standard_cat :
    ∀ rule ∈ builtInRules, rule.cat ≠ some "standard" := by
  intro rule h
  fin_cases h <;> simp [hostnameRule]

/-- The collected categories of fired rules never include `"standard"`. -/
theorem collect_no_standard (now : Int) (r : ProbeResult) :
    ∀ (rules : List Rule) (cats : List String),
      (∀ rule ∈ rules, rule.cat ≠ some "standard") →
      "standard" ∉ cats →
      "standard" ∉ (collectRules now r rules cats).1 := by
  intro rules
  induction rules with
  | nil => intro cats _ hc; exact hc
  | cons rule rest ih =>
    intro cats hr hc
    have hrule : rule.cat ≠ some "standard" := hr rule (List.mem_cons_self _ _)
    have hrest : ∀ ru ∈ rest, ru.cat ≠ some "standard" :=
      fun ru hm => hr ru (List.mem_cons_of_mem _ hm)
    by_cases h : rule.cond now r cats
    · simp only [collectRules, h, if_true]
      refine ih (cats ++ rule.cat.toList) hrest ?_
      intro hmem
      rcases List.mem_append.1 hmem with h1 | h1
      · exact hc h1
      · cases hcat : rule.cat with
        | none => rw [hcat] at h1; simp at h1
        | some c =>
          rw [hcat] at h1
          simp only [Option.toList_some, List.mem_singleton] at h1
          exact hrule (by rw [hcat, h1])
    · simp only [collectRules, h, if_false]
      exact ih cats hrest hc

/-- C2 counterexample: on a record that fires no built-in rule, with a hook
that contributes the category `"custom"`, the sentinel `"standard"` still
appears in the output and co-occurs with the hook's category — refuting the
claim that `"standard"` appears exactly when no built-in rule and no hook
contributed any category. -/
theorem classify_standard_cooccurs_counterexample :
    "standard" ∈ (classifyOne 0 cexRecord [cexPlugin]).categories
    ∧ "custom" ∈ (classifyOne 0 cexRecord [cexPlugin]).categories
    ∧ (hookHints cexRecord [cexPlugin]).flatMap (·.categories) = ["custom"]
    ∧ "custom" ≠ "standard" := by
  refine ⟨?_, ?_, ?_, ?_⟩ <;> decide

/-- C2 amended: the category list is never empty, and the sentinel
`"standard"` appears exactly when no *built-in* rule contributed a category
or some hook itself contributed the string `"standard"` (the code assigns the
sentinel before hooks run, so hook contributions do not suppress it). -/
theorem classify_categories_nonempty_standard_iff (now : Int) (r : ProbeResult)
    (plugins : List Plugin) :
    (classifyOne now r plugins).categories ≠ []
    ∧ ("standard" ∈ (classifyOne now r plugins).categories ↔
        (builtInCatContribs now r = []
          ∨ "standard" ∈ (hookHints r plugins).flatMap (·.categories))) := by
  have hcats : (classifyOne now r plugins).categories
      = dedupFirst ((applyBuiltInRules now r).categories
          ++ (hookHints r plugins).flatMap (·.categories)) := by
    simp only [classifyOne]
    rw [(plugin_fold_spec r plugins _).1]
  have hbc := applyBuiltInRules_categories now r
  have hno : "standard" ∉ builtInCatContribs now r :=
    collect_no_standard now r builtInRules [] builtInRules_no_standard_cat (by simp)
  constructor
  · rw [hcats]
    refine dedupFirst_ne_nil _ ?_
    rw [hbc]
    by_cases he : (builtInCatContribs now r).isEmpty
    · simp [he]
    · have hne : builtInCatContribs now r ≠ [] := by
        intro hnil; rw [hnil] at he; exact he rfl
      simp [he, hne]
  · rw [hcats, mem_dedupFirst, List.mem_append, hbc]
    by_cases he : (builtInCatContribs now r).isEmpty
    · have : builtInCatContribs now r = [] := List.isEmpty_iff.1 he
      simp [he, this]
    · have : builtInCatContribs now r ≠ [] := by
        intro hnil; exact he (by simp [hnil])
      simp only [he, if_false]
      constructor
      · rintro (h1 | h1)
        · exact absurd h1 hno
        · exact Or.inr h1
      · rintro (h1 | h1)
        · exact absurd h1 this
        · exact Or.inr h1

/-! ### Claim C3 — throwing hooks never abort classification -/

/-- C3: `classify` returns exactly one classified record per input record,
and each record's classification equals the one computed with every hook that
throws on that record removed — so throwing hooks abort nothing and all
non-throwing rules and hooks contribute. -/
theorem classify_isolates_throwing_hooks (now : Int) (results : List ProbeResult)
    (plugins : List Plugin) :
    (classify now results plugins).length = results.length
    ∧ classify now results plugins
        = results.map (fun r =>
            classifyOne now r (plugins.filter (fun p => !(hookThrowsOn p r)))) := by
  have hfold : ∀ (r : ProbeResult) (ps : List Plugin) (s : RuleState),
      ps.foldl (pluginStep r) s
        = (ps.filter (fun p => !(hookThrowsOn p r))).foldl (pluginStep r) s := by
    intro r ps
    induction ps with
    | nil => intro s; rfl
    | cons p rest ih =>
      intro s
      match hp : p.onClassify with
      | none =>
        simp only [List.foldl_cons, List.filter_cons, hookThrowsOn, hp,
          Bool.not_false, if_true, pluginStep]
        exact ih s
      | some f =>
        match hf : f r with
        | .thrown m =>
          simp only [List.foldl_cons, List.filter_cons, hookThrowsOn, hp, hf,
            Bool.not_true, if_false, pluginStep]
          exact ih s
        | .value v =>
          simp only [List.foldl_cons, List.filter_cons, hookThrowsOn, hp, hf,
            Bool.not_false, if_true, pluginStep]
          exact ih _
  constructor
  · simp [classify]
  · simp only [classify]
    refine List.map_congr_left ?_
    intro r _
    simp only [classifyOne]
    rw [hfold r plugins]

/-! ### Claim C4 — redirect chains are bounded by 5 hops -/

theorem fetchLoop_none_of_all_redirect (net : String → ReqOutcome)
    (rl : String → String → String)
    (h : ∀ u, isRedirectOutcome (net u) = true) :
    ∀ (fuel : Nat) (url : String) (chain : List String),
      (fetchLoop net rl fuel url chain).1 = none := by
  intro fuel
  induction fuel with
  | zero => intro url chain; rfl
  | succ fuel ih =>
    intro url chain
    have hu := h url
    cases hnet : net url with
    | fail => rw [hnet] at hu; simp [isRedirectOutcome] at hu
    | resp status loc body =>
      rw [hnet] at hu
      cases loc with
      | none => simp [isRedirectOutcome] at hu
      | some l =>
        simp only [isRedirectOutcome, Bool.and_eq_true, decide_eq_true_eq,
          Bool.not_eq_true', decide_eq_false_iff_not] at hu
        obtain ⟨⟨h300, h400⟩, hl⟩ := hu
        simp only [fetchLoop, hnet, if_neg hl]
        rw [if_pos ⟨h300, h400⟩]
        exact ih _ _

theorem fetchLoop_chain_bound (net : String → ReqOutcome)
    (rl : String → String → String) :
    ∀ (fuel : Nat) (url : String) (chain : List String) (r : FinalResponse)
      (c' : List String), fetchLoop net rl fuel url chain = (some r, c') →
      c'.length + 1 ≤ chain.length + fuel := by
  intro fuel
  induction fuel with
  | zero =>
    intro url chain r c' h
    simp [fetchLoop] at h
  | succ fuel ih =>
    intro url chain r c' h
    cases hnet : net url with
    | fail => simp [fetchLoop, hnet] at h
    | resp status loc body =>
      cases loc with
      | none =>
        simp only [fetchLoop, hnet, Prod.mk.injEq] at h
        obtain ⟨-, rfl⟩ := h
        omega
      | some l =>
        by_cases hl : l = ""
        · simp only [fetchLoop, hnet, hl, if_pos rfl, Prod.mk.injEq] at h
          obtain ⟨-, rfl⟩ := h
          omega
        · by_cases hs : 300 ≤ status ∧ status < 400
          · simp only [fetchLoop, hnet, if_neg hl] at h
            rw [if_pos hs] at h
            have := ih _ _ _ _ h
            simp only [List.length_append, List.length_cons, List.length_nil] at this
            omega
          · simp only [fetchLoop, hnet, if_neg hl] at h
            rw [if_neg hs] at h
            simp only [Prod.mk.injEq] at h
            obtain ⟨-, rfl⟩ := h
            omega

/-- C4: for every probe attempt (over any network behaviour), if the
redirect-following loop would exceed 5 hops — in particular when every
response is a followable redirect — the attempt yields no `ProbeResult` (and,
being a total function, raises no exception); and every record the probe does
produce has a redirect chain of length at most 5. -/
theorem probe_redirect_chain_bounded (net : String → ReqOutcome)
    (rl : String → String → String) (hostname ip protocol : String) (port : Nat)
    (headers : List (String × String)) (contentLength : Nat) (title : Option String)
    (tls : Option TLSInfo) (endpoints : List EndpointCheck)
    (responseTime timestamp : Int) :
    ((∀ u, isRedirectOutcome (net u) = true) →
        probeHostRecord net rl hostname ip protocol port headers contentLength
          title tls endpoints responseTime timestamp = none)
    ∧ (∀ rec, probeHostRecord net rl hostname ip protocol port headers
          contentLength title tls endpoints responseTime timestamp = some rec →
        rec.redirectChain.length ≤ 5) := by
  constructor
  · intro hall
    have h1 := fetchLoop_none_of_all_redirect net rl hall 6
      (protocol ++ "://" ++ ip ++ ":" ++ toString port ++ "/") []
    simp only [probeHostRecord, fetchWithRedirects]
    rcases hfe : fetchLoop net rl 6
        (protocol ++ "://" ++ ip ++ ":" ++ toString port ++ "/") [] with ⟨o, chain⟩
    rw [hfe] at h1
    simp only at h1
    subst h1
    rfl
  · intro rec hrec
    simp only [probeHostRecord, fetchWithRedirects] at hrec
    rcases hfe : fetchLoop net rl 6
        (protocol ++ "://" ++ ip ++ ":" ++ toString port ++ "/") [] with ⟨o, chain⟩
    rw [hfe] at hrec
    cases o with
    | none => simp at hrec
    | some resp =>
      simp only [Option.some.injEq] at hrec
      have hb := fetchLoop_chain_bound net rl 6
        (protocol ++ "://" ++ ip ++ ":" ++ toString port ++ "/") [] resp chain hfe
      have : rec.redirectChain = chain := by rw [← hrec]
      rw [this]
      simp only [List.length_nil] at hb
      omega

/-- C4 witness: with every response a `301` redirect the probe yields no
record. -/
theorem probe_redirect_chain_bounded_witness :
    probeHostRecord netAllRedirect resolveLocSnd "h.example.com" "1.2.3.4" "http" 80
      [] 0 none none [] 0 0 = none :=
  (probe_redirect_chain_bounded netAllRedirect resolveLocSnd "h.example.com"
    "1.2.3.4" "http" 80 [] 0 none none [] 0 0).1 (fun _ => rfl)

/-! ### Claim C7 — `exists` vs. status code (corrected) -/

/-- C7 counterexample: a check whose request failed has status code `0`
(strictly below 400) yet `exists = false`, so "exists iff status < 400" fails
for failed checks. -/
theorem endpoint_exists_iff_counterexample :
    ¬(((endpointCheckOf "/admin" .fail).existsFlag = true) ↔
        (endpointCheckOf "/admin" .fail).statusCode < 400) := by
  decide

/-- C7 amended: for every check produced from a request that completed, the
exists flag is `status < 400`; a check whose request failed or timed out is
recorded with status code `0` and `exists = false`. -/
theorem endpointCheckOf_exists_flag (p : String) (st : Nat) (body : String) :
    (endpointCheckOf p (.ok st body)).existsFlag = decide (st < 400)
    ∧ (endpointCheckOf p (.ok st body)).statusCode = st
    ∧ (endpointCheckOf p .fail).existsFlag = false
    ∧ (endpointCheckOf p .fail).statusCode = 0 :=
  ⟨rfl, rfl, rfl, rfl⟩

/-! ### Claim C8 — root endpoint present, existing-first order -/

theorem mem_addUnique (l : List String) (x : String) : x ∈ addUnique l x := by
  unfold addUnique
  by_cases h : x ∈ l
  · rw [if_pos (List.elem_iff.2 h)]; exact h
  · rw [if_neg (fun hc => h (List.elem_iff.1 hc))]
    exact List.mem_append_right _ (List.mem_singleton.2 rfl)

theorem path_endpointCheckOf (p : String) (o : EndpointOutcome) :
    (endpointCheckOf p o).path = p := by
  cases o <;> rfl

theorem root_mem_expandPaths (ceps : List String) : "/" ∈ expandPaths ceps := by
  simp only [expandPaths]
  exact mem_addUnique _ _

theorem partition_existing_first (A B : List EndpointCheck)
    (hA : ∀ a ∈ A, a.existsFlag = true) (hB : ∀ b ∈ B, b.existsFlag = false) :
    ∀ i j, i < j → j < (A ++ B).length →
      ((A ++ B).getD i dfltCheck).existsFlag = false →
      ((A ++ B).getD j dfltCheck).existsFlag = false := by
  intro i j hij hj hi
  have hilen : i < (A ++ B).length := lt_trans hij hj
  rw [List.getD_eq_getElem _ _ hj]
  rw [List.getD_eq_getElem _ _ hilen] at hi
  by_cases hjA : j < A.length
  · exfalso
    have hiA : i < A.length := lt_trans hij hjA
    have heq : (A ++ B)[i] = A[i] := List.getElem_append_left hiA
    rw [heq] at hi
    have hmem : A[i] ∈ A := List.getElem_mem hiA
    rw [hA _ hmem] at hi
    simp at hi
  · have hge : A.length ≤ j := le_of_not_lt hjA
    have hjB : j - A.length < B.length := by
      simp only [List.length_append] at hj
      omega
    have heq : (A ++ B)[j] = B[j - A.length] := List.getElem_append_right hge
    rw [heq]
    exact hB _ (List.getElem_mem hjB)

/-- C8: for every configured base-endpoint list and every network behaviour,
the endpoint list `probeEndpoints` produces contains a check for the root
path `/`, and every check with `exists = true` appears before every check
with `exists = false` (stably partitioned existing-first). -/
theorem probeEndpoints_root_and_sorted (ceps : List String)
    (net : String → EndpointOutcome) :
    (∃ c ∈ probeEndpoints ceps net, c.path = "/")
    ∧ ∀ i j, i < j → j < (probeEndpoints ceps net).length →
        ((probeEndpoints ceps net).getD i dfltCheck).existsFlag = false →
        ((probeEndpoints ceps net).getD j dfltCheck).existsFlag = false := by
  constructor
  · have hroot : "/" ∈ expandPaths ceps := root_mem_expandPaths ceps
    have hmem : endpointCheckOf "/" (net "/")
        ∈ (expandPaths ceps).map (fun p => endpointCheckOf p (net p)) :=
      List.mem_map_of_mem _ hroot
    refine ⟨endpointCheckOf "/" (net "/"), ?_, path_endpointCheckOf _ _⟩
    simp only [probeEndpoints]
    by_cases hex : (endpointCheckOf "/" (net "/")).existsFlag
    · exact List.mem_append_left _ (List.mem_filter.2 ⟨hmem, hex⟩)
    · refine List.mem_append_right _ (List.mem_filter.2 ⟨hmem, ?_⟩)
      simp [hex]
  · simp only [probeEndpoints]
    refine partition_existing_first _ _ ?_ ?_
    · intro a ha; exact (List.mem_filter.1 ha).2
    · intro b hb
      have := (List.mem_filter.1 hb).2
      simpa using this

/-- C8 witness: with base list `["/"]` and every request failing, the third
produced check (index 2 exists) follows a non-existing one at index 1, and by
the theorem is itself non-existing; the root check exists in the output. -/
theorem probeEndpoints_root_and_sorted_witness :
    ((probeEndpoints ["/"] netAllFail).getD 2 dfltCheck).existsFlag = false :=
  (probeEndpoints_root_and_sorted ["/"] netAllFail).2 1 2 (by decide) (by decide)
    (by decide)

/-! ### Claim C9 — the JA3-lite fingerprint is 32-bit FNV-1a -/

theorem foldl_fnv_eq_spec (cs : List Char) :
    ∀ h : Nat, cs.foldl (fun h ch => ((h ^^^ ch.toNat) * 16777619) % 4294967296) h
      = specFnv1a32 h (cs.map Char.toNat) := by
  induction cs with
  | nil => intro h; rfl
  | cons c cs ih =>
    intro h
    simp only [List.foldl_cons, List.map_cons, specFnv1a32]
    rw [ih]
    norm_num

/-- C9: for every negotiated protocol string `p` and cipher string `c` (the
signature algorithm is always absent, hence `"unknown"`), the lightweight
fingerprint computed by `computeJA3Lite` equals the 32-bit FNV-1a hash —
offset basis 2166136261, prime 16777619, XOR-then-multiply per character,
arithmetic modulo `2 ^ 32` — of the string `p|c|unknown`, rendered in
lowercase hexadecimal behind the prefix `ja3lite-`. -/
theorem computeJA3Lite_is_fnv1a (p c : String) :
    computeJA3Lite (some p) (some c) none
      = "ja3lite-" ++ natToHex
          (specFnv1a32 2166136261
            ((p ++ "|" ++ c ++ "|" ++ "unknown").data.map Char.toNat)) := by
  simp only [computeJA3Lite, Option.getD_some, Option.getD_none]
  rw [foldl_fnv_eq_spec]

/-! ### Claims C5 and C10 — cache TTL behaviour -/

theorem alistGet?_alistRemove_self {β : Type} (l : List (String × β)) (k : String) :
    alistGet? (alistRemove l k) k = none := by
  induction l with
  | nil => rfl
  | cons p rest ih =>
    obtain ⟨k', v⟩ := p
    simp only [alistRemove, ne_eq, decide_not] at ih ⊢
    by_cases h : k' = k
    · simp [h, ih]
    · simp [h, alistGet?, ih]

theorem alistGet?_front {β : Type} (key : String) (v : β) (l : List (String × β))
    (maxSize : Nat) (hmax : 0 < maxSize) :
    alistGet? (if ((key, v) :: l).length > maxSize
      then ((key, v) :: l).dropLast else ((key, v) :: l)) key = some v := by
  by_cases h : ((key, v) :: l).length > maxSize
  · rw [if_pos h]
    cases l with
    | nil => simp only [List.length_cons, List.length_nil] at h; omega
    | cons q qs =>
      rw [List.dropLast_cons₂]
      simp [alistGet?]
  · rw [if_neg h]
    simp [alistGet?]

theorem alistGet?_set_self {α : Type} (now : Int) (m : CacheManager α) (key : String)
    (e : CMEntry α) (hmax : 0 < m.maxSize) :
    alistGet? (lruSet now m key e).data key = some ⟨e, now⟩ := by
  simp only [lruSet]
  exact alistGet?_front key ⟨e, now⟩ (alistRemove m.data key) m.maxSize hmax

theorem set_fields {α : Type} (now : Int) (m : CacheManager α) (key : String)
    (v : α) (ttl : Option Int) :
    (CacheManager.set now m key v ttl).lruTtl = m.lruTtl
    ∧ (CacheManager.set now m key v ttl).defaultTTL = m.defaultTTL
    ∧ (CacheManager.set now m key v ttl).maxSize = m.maxSize := by
  simp [CacheManager.set, lruSet]

/-- C5 counterexample: with default TTL 100, an entry stored with per-entry
TTL 200 is already gone at time 150 — a `get` performed strictly before its
TTL has elapsed misses, because the underlying `lru-cache` was constructed
with the default TTL and treats the entry as stale after 100ms regardless of
the wrapper's per-entry `expiresAt`. -/
theorem cache_longer_ttl_counterexample :
    (CacheManager.get 150 (CacheManager.set 0 smallCache "k" 7 (some 200)) "k").1 = none
    ∧ ((0 : Int) + 150 - 0 < 200) ∧ smallCache.defaultTTL = 100 := by
  refine ⟨by decide, by decide, rfl⟩

/-- C5 amended: provided the per-entry TTL `t` does not exceed the cache's
default TTL, after `set(key, value, t)` at `t0` a `get(key)` performed
strictly before `t` has elapsed returns the value, and a `get(key)` after `t`
has elapsed misses and removes the entry.  For `t` greater than the default
TTL the claim fails (see the counterexample): the underlying library expires
the entry at the default TTL. -/
theorem cache_per_entry_ttl (α : Type) (m : CacheManager α) (key : String) (v : α)
    (t t0 now : Int) (hlru : m.lruTtl = m.defaultTTL) (hmax : 0 < m.maxSize)
    (ht : t ≤ m.defaultTTL) (h0 : t0 ≤ now) :
    ((now - t0 < t) →
      (CacheManager.get now (CacheManager.set t0 m key v (some t)) key).1 = some v)
    ∧ ((now - t0 > t) →
      (CacheManager.get now (CacheManager.set t0 m key v (some t)) key).1 = none
      ∧ alistGet?
          ((CacheManager.get now (CacheManager.set t0 m key v (some t)) key).2).data
          key = none) := by
  set m1 := CacheManager.set t0 m key v (some t) with hm1
  have hfields := set_fields t0 m key v (some t)
  have hget : alistGet? m1.data key = some ⟨⟨v, t0 + t⟩, t0⟩ := by
    rw [hm1]
    simpa [CacheManager.set] using
      alistGet?_set_self t0 m key ⟨v, t0 + t⟩ hmax
  constructor
  · intro hlt
    have hnostale : ¬(now - t0 > m1.lruTtl) := by
      rw [← hm1] at hfields
      omega
    simp only [CacheManager.get, lruGet, hget]
    rw [if_neg hnostale]
    simp only
    rw [if_neg (by omega : ¬ now > t0 + t)]
  · intro hgt
    by_cases hstale : now - t0 > m1.lruTtl
    · simp only [CacheManager.get, lruGet, hget]
      rw [if_pos hstale]
      exact ⟨rfl, alistGet?_alistRemove_self _ _⟩
    · simp only [CacheManager.get, lruGet, hget]
      rw [if_neg hstale]
      simp only
      rw [if_pos (by omega : now > t0 + t)]
      refine ⟨rfl, ?_⟩
      simp only
      exact alistGet?_alistRemove_self _ _

/-- C5 amended witness: default TTL 100, per-entry TTL 50, get at 30. -/
theorem cache_per_entry_ttl_witness :
    (CacheManager.get 30 (CacheManager.set 0 smallCache "k" 7 (some 50)) "k").1 = some 7 :=
  (cache_per_entry_ttl Nat smallCache "k" 7 50 0 30 rfl (by decide) (by decide)
    (by decide)).1 (by decide)

/-- C10: when both the A and the AAAA lookups fail, `resolveDNS` returns the
empty address list, stores it in the DNS cache under `dns:<hostname>` with
the 1-hour TTL, and a second resolution of the same hostname within the TTL
window returns the cached empty list without invoking the resolution factory
at all (whatever the DNS answers would then be) — failures are cached exactly
like successes. -/
theorem dns_failure_cached (h : String) (t0 t1 : Int) (eA eB : String)
    (a' aaaa' : Except String (List String)) (h01 : t0 ≤ t1)
    (h1 : t1 ≤ t0 + 3600000) :
    (resolveDNS t0 dnsCacheInit h (.error eA) (.error eB)).1 = []
    ∧ (resolveDNS t0 dnsCacheInit h (.error eA) (.error eB)).2.2 = true
    ∧ alistGet? (resolveDNS t0 dnsCacheInit h (.error eA) (.error eB)).2.1.data
        ("dns:" ++ h) = some ⟨⟨[], t0 + 3600000⟩, t0⟩
    ∧ (resolveDNS t1 (resolveDNS t0 dnsCacheInit h (.error eA) (.error eB)).2.1 h
        a' aaaa').1 = []
    ∧ (resolveDNS t1 (resolveDNS t0 dnsCacheInit h (.error eA) (.error eB)).2.1 h
        a' aaaa').2.2 = false := by
  have hr1 : resolveDNS t0 dnsCacheInit h (.error eA) (.error eB)
      = ([], ⟨[("dns:" ++ h, ⟨⟨[], t0 + 3600000⟩, t0⟩)], 5000, 3600000, 3600000⟩, true) := by
    simp [resolveDNS, CacheManager.getOrSet, CacheManager.get, lruGet, dnsCacheInit,
      CacheManager.new, alistGet?, dnsFactory, CacheManager.set, lruSet, alistRemove]
  rw [hr1]
  have hlook : alistGet?
      [("dns:" ++ h, (⟨⟨[], t0 + 3600000⟩, t0⟩ : LruEntry (List String)))]
      ("dns:" ++ h) = some ⟨⟨[], t0 + 3600000⟩, t0⟩ := by
    simp [alistGet?]
  refine ⟨rfl, rfl, by simp [alistGet?], ?_, ?_⟩
  all_goals
    simp only [resolveDNS, CacheManager.getOrSet, CacheManager.get, lruGet, hlook]
    rw [if_neg (by omega : ¬ t1 - t0 > (3600000 : Int))]
    simp only
    rw [if_neg (by omega : ¬ t1 > t0 + 3600000)]

/-- C10 witness: both lookups fail at time 0; re-resolution at time 1000
returns the cached empty list without invoking the factory. -/
theorem dns_failure_cached_witness :
    (resolveDNS 1000 (resolveDNS 0 dnsCacheInit "x.example.com"
        (.error "ENOTFOUND") (.error "ENOTFOUND")).2.1 "x.example.com"
      (.ok ["1.2.3.4"]) (.ok ["5.6.7.8"])).2.2 = false :=
  (dns_failure_cached "x.example.com" 0 1000 "ENOTFOUND" "ENOTFOUND"
    (.ok ["1.2.3.4"]) (.ok ["5.6.7.8"]) (by decide) (by decide)).2.2.2.2

/-! ### Claim C6 — A first, AAAA fallback, silent exclusion -/

/-- C6: the resolution factory returns the A records whenever the A lookup
succeeds (independently of any AAAA answer — the two are never merged), the
AAAA records only when the A lookup fails, and `[]` when both fail; and every
host in the verified output has a non-empty resolved set equal to its
resolution, so a candidate resolving to zero addresses is excluded without
error. -/
theorem resolver_a_first_aaaa_fallback :
    (∀ (ips : List String) (aaaa : Except String (List String)),
        dnsFactory (.ok ips) aaaa = ips)
    ∧ (∀ (e : String) (ips : List String), dnsFactory (.error e) (.ok ips) = ips)
    ∧ (∀ (e e' : String), dnsFactory (.error e) (.error e') = [])
    ∧ (∀ (resolve : String → List String) (cands : List SubdomainResult)
        (v : SubdomainResult), v ∈ verifyDNS resolve cands →
        resolve v.hostname ≠ [] ∧ v.resolvedIPs = resolve v.hostname) := by
  refine ⟨fun _ _ => rfl, fun _ _ => rfl, fun _ _ => rfl, ?_⟩
  intro resolve cands v hv
  simp only [verifyDNS, List.mem_filterMap] at hv
  obtain ⟨c, -, hc⟩ := hv
  by_cases hips : (resolve c.hostname).length > 0
  · rw [if_pos hips] at hc
    obtain rfl := Option.some.inj hc
    refine ⟨?_, rfl⟩
    intro hnil
    simp only [hnil] at hips
    simp at hips
  · rw [if_neg hips] at hc
    exact absurd hc (by simp)

/-- C6 witness: a candidate resolving to one address passes verification with
that address recorded. -/
theorem resolver_a_first_aaaa_fallback_witness :
    resolveOne verifiedA.hostname ≠ []
    ∧ verifiedA.resolvedIPs = resolveOne verifiedA.hostname :=
  resolver_a_first_aaaa_fallback.2.2.2 resolveOne [candA] verifiedA (by decide)

end Cod3x
